import Mathlib

/-!
Verification of the capability-taxonomy generation pipeline
(`app.py`, `main2.py`, `streamlit_app.py`).

The development shallowly embeds the pure data-manipulating parts of the
pipeline: the response sanitizer, JSON parsing (a model of Python's
`json.loads`), chunk generation error routing, batch merging, L2
attachment, and the CSV flatteners.  External effects (the generative
model call, the UI) are modelled as explicit function parameters or
`Except` results.
-/

namespace ClarisTXM

/-- Model of a Python value as produced by `json.loads` and manipulated by
the pipeline.  Numbers keep their source lexeme (their numeric value is
never inspected by the code under study). -/
inductive PyVal where
  | str : String → PyVal
  | numLit : String → PyVal
  | bool : Bool → PyVal
  | none_ : PyVal
  | list : List PyVal → PyVal
  | dict : List (String × PyVal) → PyVal

/-- Backtick character (written via its code point). -/
def bt : Char := Char.ofNat 96

/-- The closing/opening code fence `` ``` `` as a character list. -/
def fence : List Char := "```".data

/-- The tagged opening code fence ```` ```json ```` as a character list. -/
def fenceJson : List Char := "```json".data

/-- Fuel-driven worker for `removeAll`; the fuel only serves structural
termination and is immaterial once it is at least the list length. -/
def removeAllGo (pat : List Char) : Nat → List Char → List Char
  | _, [] => []
  | 0, s => s
  | Nat.succ n, c :: rest =>
    if pat ≠ [] ∧ pat <+: (c :: rest) then removeAllGo pat n ((c :: rest).drop pat.length)
    else c :: removeAllGo pat n rest

/-- Model of Python's `str.replace(old, "")`: delete every leftmost
non-overlapping occurrence of `pat`, scanning left to right.  (The code
only ever calls `replace` with a non-empty pattern; for an empty pattern
this model is the identity.) -/
def removeAll (pat : List Char) (s : List Char) : List Char :=
  removeAllGo pat s.length s

/-- Whitespace characters stripped by Python's `str.strip()` (the ASCII
ones; the inputs of interest are ASCII). -/
def isPyWs (c : Char) : Bool :=
  c = ' ' || c = '\t' || c = '\n' || c = '\r' || c = '\x0b' || c = '\x0c'

/-- Model of Python's `str.strip()`: drop leading and trailing whitespace. -/
def pstrip (s : List Char) : List Char :=
  ((s.dropWhile isPyWs).reverse.dropWhile isPyWs).reverse

/-- `sanitize_response` from `app.py` / `streamlit_app.py` / `main2.py`:
`response_text.replace("```json", "").replace("```", "").strip()`. -/
def sanitize_chars (s : List Char) : List Char :=
  pstrip (removeAll fence (removeAll fenceJson s))

/-- String-level wrapper of `sanitize_chars`. -/
def sanitize_response (s : String) : String :=
  String.mk (sanitize_chars s.data)

/-! ### A model of Python's `json.loads`

A strict-JSON recursive-descent parser (plus the `NaN`/`Infinity` extensions
Python accepts by default).  Numbers keep their lexeme, duplicate object
keys overwrite in place (CPython `dict` semantics).  The fuel argument only
drives structural termination. -/

/-- Double-quote character. -/
def qm : Char := Char.ofNat 34

/-- Backslash character. -/
def bsl : Char := Char.ofNat 92

/-- Opening-brace character. -/
def lbr : Char := Char.ofNat 123

/-- Closing-brace character. -/
def rbr : Char := Char.ofNat 125

/-- Hexadecimal digit value. -/
def hexVal (c : Char) : Option Nat :=
  if '0' ≤ c ∧ c ≤ '9' then some (c.toNat - 48)
  else if 'a' ≤ c ∧ c ≤ 'f' then some (c.toNat - 87)
  else if 'A' ≤ c ∧ c ≤ 'F' then some (c.toNat - 55)
  else none

/-- JSON insignificant whitespace. -/
def isJWs (c : Char) : Bool :=
  c = ' ' || c = '\t' || c = '\n' || c = '\r'

/-- Drop leading JSON whitespace. -/
def skipJWs : List Char → List Char
  | [] => []
  | c :: rest => if isJWs c then skipJWs rest else c :: rest

/-- Parse the body of a JSON string (after the opening quote), handling the
standard escapes; control characters are rejected (strict mode). -/
def jstrChars : Nat → List Char → List Char → Option (List Char × List Char)
  | 0, _, _ => none
  | Nat.succ n, acc, s =>
    match s with
    | [] => none
    | c :: rest =>
      if c = qm then some (acc.reverse, rest)
      else if c = bsl then
        match rest with
        | [] => none
        | e :: rest2 =>
          if e = qm then jstrChars n (qm :: acc) rest2
          else if e = bsl then jstrChars n (bsl :: acc) rest2
          else if e = '/' then jstrChars n ('/' :: acc) rest2
          else if e = 'b' then jstrChars n ('\x08' :: acc) rest2
          else if e = 'f' then jstrChars n ('\x0c' :: acc) rest2
          else if e = 'n' then jstrChars n ('\n' :: acc) rest2
          else if e = 'r' then jstrChars n ('\r' :: acc) rest2
          else if e = 't' then jstrChars n ('\t' :: acc) rest2
          else if e = 'u' then
            match rest2 with
            | h1 :: h2 :: h3 :: h4 :: rest3 =>
              match hexVal h1, hexVal h2, hexVal h3, hexVal h4 with
              | some a, some b, some c2, some d =>
                  jstrChars n (Char.ofNat (((a * 16 + b) * 16 + c2) * 16 + d) :: acc) rest3
              | _, _, _, _ => none
            | _ => none
          else none
      else if c.toNat < 32 then none
      else jstrChars n (c :: acc) rest

/-- Longest digit run at the front of the input. -/
def jdigits : List Char → List Char × List Char
  | [] => ([], [])
  | c :: rest =>
    if c.isDigit then
      let (ds, r) := jdigits rest
      (c :: ds, r)
    else ([], c :: rest)

/-- Optional fraction part (taken only when '.' is followed by a digit,
mirroring the CPython number regex). -/
def jfrac (s : List Char) : List Char × List Char :=
  match s with
  | c :: rest =>
    if c = '.' then
      match jdigits rest with
      | ([], _) => ([], s)
      | (ds, r) => (c :: ds, r)
    else ([], s)
  | [] => ([], s)

/-- Optional exponent part (taken only when well formed, mirroring the
CPython number regex). -/
def jexp (s : List Char) : List Char × List Char :=
  match s with
  | c :: rest =>
    if c = 'e' ∨ c = 'E' then
      match rest with
      | d :: rest2 =>
        if d = '+' ∨ d = '-' then
          match jdigits rest2 with
          | ([], _) => ([], s)
          | (ds, r) => (c :: d :: ds, r)
        else
          match jdigits rest with
          | ([], _) => ([], s)
          | (ds, r) => (c :: ds, r)
      | [] => ([], s)
    else ([], s)
  | [] => ([], s)

/-- Parse a JSON number (or `-Infinity`), keeping the lexeme. -/
def jnum (s : List Char) : Option (PyVal × List Char) :=
  let sp : List Char × List Char :=
    match s with
    | c :: rest => if c = '-' then (['-'], rest) else ([], s)
    | [] => ([], s)
  if sp.1 ≠ [] ∧ "Infinity".data <+: sp.2 then
    some (.numLit "-Infinity", sp.2.drop 8)
  else
    match sp.2 with
    | [] => none
    | d :: rest =>
      if d.isDigit then
        let ir : List Char × List Char :=
          if d = '0' then ([d], rest) else jdigits (d :: rest)
        let fr := jfrac ir.2
        let er := jexp fr.2
        some (.numLit (String.mk (sp.1 ++ ir.1 ++ fr.1 ++ er.1)), er.2)
      else none

/-- Insert/overwrite a key in an association list, keeping the position of
the first insertion (CPython `dict` update semantics). -/
def dupdate : List (String × PyVal) → String → PyVal → List (String × PyVal)
  | [], k, v => [(k, v)]
  | (k', v') :: rest, k, v =>
    if k' = k then (k, v) :: rest else (k', v') :: dupdate rest k v

/-- Parser state: a value, the members of an object, or the items of an
array (with the fields/items parsed so far). -/
inductive JMode where
  | val : JMode
  | members : List (String × PyVal) → JMode
  | items : List PyVal → JMode

/-- The JSON parser proper.  `jparse n .val s` parses one JSON value at the
front of `s`. -/
def jparse : Nat → JMode → List Char → Option (PyVal × List Char)
  | 0, _, _ => none
  | Nat.succ n, JMode.val, s =>
    (match skipJWs s with
    | [] => none
    | c :: rest =>
      if c = lbr then
        match skipJWs rest with
        | c2 :: rest2 =>
          if c2 = rbr then some (.dict [], rest2)
          else jparse n (JMode.members []) (c2 :: rest2)
        | [] => none
      else if c = '[' then
        match skipJWs rest with
        | c2 :: rest2 =>
          if c2 = ']' then some (.list [], rest2)
          else jparse n (JMode.items []) (c2 :: rest2)
        | [] => none
      else if c = qm then
        match jstrChars (rest.length + 1) [] rest with
        | some (cs, rest2) => some (.str (String.mk cs), rest2)
        | none => none
      else if c = 't' then
        if "rue".data <+: rest then some (.bool true, rest.drop 3) else none
      else if c = 'f' then
        if "alse".data <+: rest then some (.bool false, rest.drop 4) else none
      else if c = 'n' then
        if "ull".data <+: rest then some (.none_, rest.drop 3) else none
      else if c = 'N' then
        if "aN".data <+: rest then some (.numLit "NaN", rest.drop 2) else none
      else if c = 'I' then
        if "nfinity".data <+: rest then some (.numLit "Infinity", rest.drop 7) else none
      else jnum (c :: rest))
  | Nat.succ n, JMode.members acc, s =>
    (match skipJWs s with
    | c :: rest =>
      if c = qm then
        match jstrChars (rest.length + 1) [] rest with
        | some (kcs, rest2) =>
          match skipJWs rest2 with
          | ':' :: rest3 =>
            match jparse n JMode.val rest3 with
            | some (v, rest4) =>
              match skipJWs rest4 with
              | c5 :: rest5 =>
                if c5 = ',' then jparse n (JMode.members (dupdate acc (String.mk kcs) v)) rest5
                else if c5 = rbr then some (.dict (dupdate acc (String.mk kcs) v), rest5)
                else none
              | [] => none
            | none => none
          | _ => none
        | none => none
      else none
    | [] => none)
  | Nat.succ n, JMode.items acc, s =>
    (match jparse n JMode.val s with
    | some (v, rest) =>
      match skipJWs rest with
      | c :: rest2 =>
        if c = ',' then jparse n (JMode.items (acc ++ [v])) rest2
        else if c = ']' then some (.list (acc ++ [v]), rest2)
        else none
      | [] => none
    | none => none)

/-- Model of Python's `json.loads`: parse one value, then require only
whitespace to remain (otherwise Python raises "Extra data"). -/
def json_loads (s : String) : Option PyVal :=
  match jparse (2 * s.length + 4) JMode.val s.data with
  | some (v, rest) => if skipJWs rest = [] then some v else none
  | none => none

/-! ### Python exceptions and the chunk generators -/

/-- The exceptions the embedded pipeline fragments can surface. -/
inductive PyExc where
  | runtimeError : String → PyExc
  | jsonDecodeError : PyExc
  | keyError : PyExc
  | typeError : PyExc
  | external : String → PyExc
deriving DecidableEq

/-- The message of the single `RuntimeError` raised by
`CapabilityGenerator.generate_capabilities_chunk` in `app.py`. -/
def apiErrMsg : String := "API exhausted or an error occurred while generating content"

/-- `generate_capabilities_chunk` from `app.py` (lines 72-76): the external
call and `json.loads(sanitize_response(...))` sit inside ONE `try`, and any
exception is turned into the same `RuntimeError`.  The external call is
modelled by its outcome `callResult` (`.ok` = the returned text, `.error` =
the call raised). -/
def generate_capabilities_chunk (callResult : Except String String) : Except PyExc PyVal :=
  match callResult with
  | .error _ => .error (.runtimeError apiErrMsg)
  | .ok text =>
    match json_loads (sanitize_response text) with
    | some v => .ok v
    | none => .error (.runtimeError apiErrMsg)

/-- `generate_capabilities_chunk` from `streamlit_app.py` (lines 23-49):
no `try` at all, so a failing call propagates its own exception and
unparseable text propagates the raw `json.JSONDecodeError`. -/
def generate_capabilities_chunk_st (callResult : Except String String) : Except PyExc PyVal :=
  match callResult with
  | .error m => .error (.external m)
  | .ok text =>
    match json_loads (sanitize_response text) with
    | some v => .ok v
    | none => .error .jsonDecodeError

/-! ### The taxonomy tree -/

/-- An L1 capability node.  `L2_capabilities = none` models a Python dict
without the "L2_capabilities" key; the attached payload is whatever list
the model returned, elements possibly malformed. -/
structure L1Item where
  L1_capability : String
  L1_capability_description : String
  L2_capabilities : Option (List PyVal)

/-- An L0 capability node. -/
structure L0Item where
  L0_capability : String
  L0_capability_description : String
  L1_capabilities : List L1Item

/-- The industry tree (the shape shared by `complete_capabilities`). -/
structure Industry where
  industry : String
  industry_description : String
  L0_capabilities : List L0Item

/-- One parsed L0 batch, as produced by a successful
`json.loads` of a chunk: the tree fields plus the three advisory counters.
(Claims about `merge_capabilities` quantify over already-parsed valid
batches; a chunk failing `json.loads` raises before contributing.) -/
structure Batch where
  industry : String
  industry_description : String
  L0_capabilities : List L0Item
  L0_capabilities_count : Int
  L1_capabilities_count : Int
  L2_capabilities_count : Int

/-- All L1 nodes of the tree, in document order. -/
def Industry.allL1 (ind : Industry) : List L1Item :=
  (ind.L0_capabilities.map fun l0 => l0.L1_capabilities).flatten

/-! ### `merge_capabilities` (app.py 132-148 / main2.py 83-99) -/

/-- The accumulator initialisation of `merge_capabilities`. -/
def mergeInit : Batch :=
  { industry := "", industry_description := "", L0_capabilities := [],
    L0_capabilities_count := 0, L1_capabilities_count := 0, L2_capabilities_count := 0 }

/-- One iteration of the `for chunk in chunks` loop of `merge_capabilities`:
name and description are ASSIGNED (overwritten), children are extended,
counters are added. -/
def mergeStep (merged : Batch) (chunk_json : Batch) : Batch :=
  { industry := chunk_json.industry,
    industry_description := chunk_json.industry_description,
    L0_capabilities := merged.L0_capabilities ++ chunk_json.L0_capabilities,
    L0_capabilities_count := merged.L0_capabilities_count + chunk_json.L0_capabilities_count,
    L1_capabilities_count := merged.L1_capabilities_count + chunk_json.L1_capabilities_count,
    L2_capabilities_count := merged.L2_capabilities_count + chunk_json.L2_capabilities_count }

/-- `merge_capabilities` on valid parsed batches. -/
def merge_capabilities (chunks : List Batch) : Batch :=
  chunks.foldl mergeStep mergeInit

/-! ### `merge_l2_capabilities` (streamlit_app.py 66-91), the L2 attacher -/

/-- Attach `gen l1` to every L1 of the list, in order; a generator failure
(the exception of `generate_l2_capabilities`) propagates and aborts. -/
def attach_l1 (gen : L1Item → Except String (List PyVal)) :
    List L1Item → Except String (List L1Item)
  | [] => .ok []
  | l1 :: rest =>
    match gen l1 with
    | .error e => .error e
    | .ok l2s =>
      match attach_l1 gen rest with
      | .error e => .error e
      | .ok rest' => .ok ({ l1 with L2_capabilities := some l2s } :: rest')

/-- The outer `for l0 in ...` loop of `merge_l2_capabilities`. -/
def attach_l0 (gen : L1Item → Except String (List PyVal)) :
    List L0Item → Except String (List L0Item)
  | [] => .ok []
  | l0 :: rest =>
    match attach_l1 gen l0.L1_capabilities with
    | .error e => .error e
    | .ok l1s =>
      match attach_l0 gen rest with
      | .error e => .error e
      | .ok rest' => .ok ({ l0 with L1_capabilities := l1s } :: rest')

/-- `merge_l2_capabilities` from `streamlit_app.py`: for every L1 node set
`l1["L2_capabilities"] = generate_l2_capabilities(l1)` (modelled by `gen`,
attached verbatim); the progress UI is dropped. -/
def merge_l2_capabilities (gen : L1Item → Except String (List PyVal))
    (cc : Industry) : Except String Industry :=
  match attach_l0 gen cc.L0_capabilities with
  | .error e => .error e
  | .ok l0s => .ok { cc with L0_capabilities := l0s }

/-! ### The CSV flatteners -/

/-- `"k" in d` for the association-list model of a dict. -/
def hasKey (fs : List (String × PyVal)) (k : String) : Bool :=
  (List.lookup k fs).isSome

/-- The defensive check of streamlit's `generate_csv`:
`isinstance(l2, dict) and "L2_capability" in l2 and
"L2_capability_description" in l2`. -/
def l2WellFormed : PyVal → Bool
  | .dict fs => hasKey fs "L2_capability" && hasKey fs "L2_capability_description"
  | _ => false

/-- One data row of the three-level CSV (identical in both variants):
11 fields with the literal level markers "0"/"1"/"2". -/
def mkRow (cc : Industry) (l0 : L0Item) (l1 : L1Item)
    (fs : List (String × PyVal)) : List PyVal :=
  [.str cc.industry, .str cc.industry_description,
   .str l0.L0_capability, .str l0.L0_capability_description, .str "0",
   .str l1.L1_capability, .str l1.L1_capability_description, .str "1",
   (List.lookup "L2_capability" fs).getD .none_,
   (List.lookup "L2_capability_description" fs).getD .none_, .str "2"]

/-- Row built from an arbitrary L2 entry (only the dict branch is ever
reached behind the well-formedness filter). -/
def rowOfL2 (cc : Industry) (l0 : L0Item) (l1 : L1Item) : PyVal → List PyVal
  | .dict fs => mkRow cc l0 l1 fs
  | _ => []

/-- The `for l2 in l1.get("L2_capabilities", [])` loop of streamlit's
`generate_csv` (lines 106-118): emit a row for well-formed entries, skip
the rest. -/
def st_rows_l2 (cc : Industry) (l0 : L0Item) (l1 : L1Item) :
    List PyVal → List (List PyVal)
  | [] => []
  | l2 :: rest =>
    match l2 with
    | .dict fs =>
      if hasKey fs "L2_capability" && hasKey fs "L2_capability_description" then
        mkRow cc l0 l1 fs :: st_rows_l2 cc l0 l1 rest
      else st_rows_l2 cc l0 l1 rest
    | _ => st_rows_l2 cc l0 l1 rest

/-- The `for l1 in l0["L1_capabilities"]` loop of streamlit's
`generate_csv`. -/
def st_rows_l1 (cc : Industry) (l0 : L0Item) : List L1Item → List (List PyVal)
  | [] => []
  | l1 :: rest =>
    st_rows_l2 cc l0 l1 (l1.L2_capabilities.getD []) ++ st_rows_l1 cc l0 rest

/-- The `for l0 in complete_capabilities["L0_capabilities"]` loop of
streamlit's `generate_csv`. -/
def st_rows_l0 (cc : Industry) : List L0Item → List (List PyVal)
  | [] => []
  | l0 :: rest => st_rows_l1 cc l0 l0.L1_capabilities ++ st_rows_l0 cc rest

/-- Data rows of streamlit's `generate_csv` (93-119). -/
def st_generate_csv_rows (cc : Industry) : List (List PyVal) :=
  st_rows_l0 cc cc.L0_capabilities

/-- The inner L2 loop of app.py's `generate_csv` (lines 190-210): NO
well-formedness guard; `l2_item["L2_capability"]` raises `TypeError` on a
non-dict entry and `KeyError` on a dict missing the key, aborting the whole
function. -/
def app_rows_l2 (cc : Industry) (l0 : L0Item) (l1 : L1Item) :
    List PyVal → Except PyExc (List (List PyVal))
  | [] => .ok []
  | l2 :: rest =>
    match l2 with
    | .dict fs =>
      match List.lookup "L2_capability" fs, List.lookup "L2_capability_description" fs with
      | some a, some b =>
        match app_rows_l2 cc l0 l1 rest with
        | .ok rs =>
          .ok ([.str cc.industry, .str cc.industry_description,
                .str l0.L0_capability, .str l0.L0_capability_description, .str "0",
                .str l1.L1_capability, .str l1.L1_capability_description, .str "1",
                a, b, .str "2"] :: rs)
        | .error e => .error e
      | _, _ => .error .keyError
    | _ => .error .typeError

/-- The L1 loop of app.py's `generate_csv` (uses
`l1_item.get("L2_capabilities", [])`). -/
def app_rows_l1 (cc : Industry) (l0 : L0Item) :
    List L1Item → Except PyExc (List (List PyVal))
  | [] => .ok []
  | l1 :: rest =>
    match app_rows_l2 cc l0 l1 (l1.L2_capabilities.getD []) with
    | .error e => .error e
    | .ok rs1 =>
      match app_rows_l1 cc l0 rest with
      | .error e => .error e
      | .ok rs2 => .ok (rs1 ++ rs2)

/-- The L0 loop of app.py's `generate_csv`. -/
def app_rows_l0 (cc : Industry) : List L0Item → Except PyExc (List (List PyVal))
  | [] => .ok []
  | l0 :: rest =>
    match app_rows_l1 cc l0 l0.L1_capabilities with
    | .error e => .error e
    | .ok rs1 =>
      match app_rows_l0 cc rest with
      | .error e => .error e
      | .ok rs2 => .ok (rs1 ++ rs2)

/-- Data rows of app.py's `generate_csv` (175-230), or the exception it
raises. -/
def app_generate_csv_rows (cc : Industry) : Except PyExc (List (List PyVal)) :=
  app_rows_l0 cc cc.L0_capabilities

/-- The 11 header names written by both `generate_csv` variants. -/
def csvHeaders : List String :=
  ["Industry", "Industry Description", "L0 Capability",
   "L0 Capability Description", "L0 Capability Level",
   "L1 Capability", "L1 Capability Description", "L1 Capability Level",
   "L2 Capability", "L2 Capability Description", "L2 Capability Level"]

/-- Does `csv.writer` quote this field? -/
def csvNeedsQuote (s : String) : Bool :=
  s.data.any fun c => c = ',' || c = qm || c = '\n' || c = '\r'

/-- Minimal-quoting of one field, as `csv.writer` does. -/
def csvQuote (s : String) : String :=
  if csvNeedsQuote s then
    String.mk ((qm :: s.data.flatMap fun c => if c = qm then [qm, qm] else [c]) ++ [qm])
  else s

/-- One physical CSV line (`csv.writer` default dialect: comma separator,
no space, CRLF terminator). -/
def csvLine (fields : List String) : String :=
  String.intercalate "," (fields.map csvQuote) ++ "\r\n"

/-- Python `str()` as applied by `csv.writer` to non-string fields
(exact for the scalar values; container reprs abbreviated — containers are
never serialized by the theorems below). -/
def pyStr : PyVal → String
  | .str s => s
  | .numLit s => s
  | .bool b => if b then "True" else "False"
  | .none_ => ""
  | .list _ => "[...]"
  | .dict _ => "\x7b...\x7d"

/-- Serialize header plus data rows the way `csv.writer` writes them. -/
def serializeCsv (rows : List (List PyVal)) : String :=
  csvLine csvHeaders ++ String.join (rows.map fun r => csvLine (r.map pyStr))

/-- streamlit's `generate_csv`: total, returns the CSV text. -/
def st_generate_csv (cc : Industry) : String :=
  serializeCsv (st_generate_csv_rows cc)

/-- app.py's `generate_csv`: the CSV text, or the exception raised while
building the row list. -/
def app_generate_csv (cc : Industry) : Except PyExc String :=
  match app_generate_csv_rows cc with
  | .ok rows => .ok (serializeCsv rows)
  | .error e => .error e

/-! ### `stream_csv` (app.py 78-102), the two-level streaming variant -/

/-- The 8 header names yielded by `stream_csv`. -/
def stream_csv_headers : List String :=
  ["Industry", "Industry Description", "L0 Capability",
   "L0 Capability Description", "L0 Level",
   "L1 Capability", "L1 Capability Description", "L1 Level"]

/-- One `stream_csv` data row.  Field 2 is the literal string
"Industry Description" (app.py line 94), not the tree's description. -/
def stream_csv_row (cc : Industry) (l0 : L0Item) (l1 : L1Item) : List String :=
  [cc.industry, "Industry Description",
   l0.L0_capability, l0.L0_capability_description, "0",
   l1.L1_capability, l1.L1_capability_description, "1"]

/-- All rows yielded by `stream_csv`, header first. -/
def stream_csv_rows (cc : Industry) : List (List String) :=
  stream_csv_headers ::
    (cc.L0_capabilities.map fun l0 =>
      l0.L1_capabilities.map fun l1 => stream_csv_row cc l0 l1).flatten

/-- The physical lines yielded by `stream_csv` (plain `','.join`, LF). -/
def stream_csv_lines (cc : Industry) : List String :=
  (stream_csv_rows cc).map fun r => String.intercalate "," r ++ "\n"

/-! ### Statement-level reformulations used by the theorems -/

/-- The rows of the three-level CSV described as a filter: one row per
WELL-FORMED L2 entry, in document order. -/
def filteredRows (cc : Industry) : List (List PyVal) :=
  (cc.L0_capabilities.map fun l0 =>
    (l0.L1_capabilities.map fun l1 =>
      ((l1.L2_capabilities.getD []).filter l2WellFormed).map (rowOfL2 cc l0 l1)).flatten).flatten

/-- The rows of the three-level CSV restricted to L1 nodes that actually
carry an "L2_capabilities" key. -/
def attachedRows (cc : Industry) : List (List PyVal) :=
  (cc.L0_capabilities.map fun l0 =>
    ((l0.L1_capabilities.filter fun l1 => l1.L2_capabilities.isSome).map fun l1 =>
      st_rows_l2 cc l0 l1 (l1.L2_capabilities.getD [])).flatten).flatten

/-- The header string asserted by the specification (with a space after
each comma). -/
def claimedHeader : String :=
  "Industry, Industry Description, L0 Capability, L0 Capability Description, L0 Capability Level, L1 Capability, L1 Capability Description, L1 Capability Level, L2 Capability, L2 Capability Description, L2 Capability Level"

/-! ### Concrete inputs for the counterexamples and witnesses -/

/-- First merge batch: non-empty name and description. -/
def cexBatchA : Batch :=
  { industry := "A", industry_description := "first description",
    L0_capabilities := [⟨"A-l0", "da", []⟩],
    L0_capabilities_count := 1, L1_capabilities_count := 0, L2_capabilities_count := 0 }

/-- Second merge batch: different non-empty name and description. -/
def cexBatchB : Batch :=
  { industry := "B", industry_description := "second description",
    L0_capabilities := [⟨"B-l0", "db", []⟩],
    L0_capabilities_count := 2, L1_capabilities_count := 3, L2_capabilities_count := 4 }

/-- A generator whose (valid) response is the empty JSON array. -/
def emptyGenC2 : L1Item → Except String (List PyVal) := fun _ => .ok []

/-- A one-L0/one-L1 tree awaiting L2 attachment. -/
def cexIndC2 : Industry := ⟨"Retail", "d", [⟨"A", "da", [⟨"A1", "d1", none⟩]⟩]⟩

/-- `cexIndC2` after attaching the empty batches. -/
def cexResC2 : Industry := ⟨"Retail", "d", [⟨"A", "da", [⟨"A1", "d1", some []⟩]⟩]⟩

/-- A generator returning one well-formed L2 entry. -/
def witGenC2 : L1Item → Except String (List PyVal) := fun _ =>
  .ok [PyVal.dict [("L2_capability", PyVal.str "X"),
    ("L2_capability_description", PyVal.str "Y")]]

/-- A one-L0/one-L1 tree awaiting L2 attachment (witness input). -/
def witIndC2 : Industry := ⟨"W", "wd", [⟨"A", "da", [⟨"A1", "d1", none⟩]⟩]⟩

/-- `witIndC2` after attaching `witGenC2`'s batch. -/
def witResC2 : Industry :=
  ⟨"W", "wd", [⟨"A", "da", [⟨"A1", "d1",
    some [PyVal.dict [("L2_capability", PyVal.str "X"),
      ("L2_capability_description", PyVal.str "Y")]]⟩]⟩]⟩

/-- A tree holding one malformed L2 entry (an object missing the
description field). -/
def cexIndC4 : Industry :=
  ⟨"I", "D", [⟨"L0", "d0", [⟨"A1", "d1",
    some [PyVal.dict [("L2_capability", PyVal.str "X")]]⟩]⟩]⟩

/-- A tree with a single well-formed L2 entry (witness input). -/
def witIndC4 : Industry :=
  ⟨"I4", "D4", [⟨"L04", "d04", [⟨"B1", "e1",
    some [PyVal.dict [("L2_capability", PyVal.str "X4"),
      ("L2_capability_description", PyVal.str "Y4")]]⟩]⟩]⟩

/-- The row list app.py's `generate_csv` produces on `witIndC4`. -/
def witRowsC4 : List (List PyVal) :=
  [[.str "I4", .str "D4", .str "L04", .str "d04", .str "0",
    .str "B1", .str "e1", .str "1", .str "X4", .str "Y4", .str "2"]]

/-- An industry with no L0 children (counterexample input for the header
format). -/
def cexIndC8 : Industry := ⟨"X", "D", []⟩

/-- A tree with one attached well-formed L2 entry (witness input for the
header/levels theorem). -/
def witIndC8 : Industry :=
  ⟨"I8", "D8", [⟨"L08", "d08", [⟨"C1", "f1",
    some [PyVal.dict [("L2_capability", PyVal.str "X8"),
      ("L2_capability_description", PyVal.str "Y8")]]⟩]⟩]⟩

/-- The single data row of `witIndC8`. -/
def witRowC8 : List PyVal :=
  [.str "I8", .str "D8", .str "L08", .str "d08", .str "0",
   .str "C1", .str "f1", .str "1", .str "X8", .str "Y8", .str "2"]

/-- A tree whose description differs from the literal string
"Industry Description" (witness input). -/
def witIndC9 : Industry :=
  ⟨"Retail", "actual industry description", [⟨"A9", "da9", [⟨"A91", "d91", none⟩]⟩]⟩

/-- A partial tree: first L1 not yet attached, second L1 attached with a
malformed (non-dict) entry. -/
def cexIndC10 : Industry :=
  ⟨"I", "D", [⟨"L0", "d0",
    [⟨"A1", "d1", none⟩, ⟨"A2", "d2", some [PyVal.str "oops"]⟩]⟩]⟩

/-- A partial tree: first L1 not yet attached, second L1 attached with one
well-formed entry (witness input). -/
def witIndC10 : Industry :=
  ⟨"I10", "D10", [⟨"L010", "d010",
    [⟨"P1", "q1", none⟩, ⟨"P2", "q2",
      some [PyVal.dict [("L2_capability", PyVal.str "XA"),
        ("L2_capability_description", PyVal.str "YA")]]⟩]⟩]⟩

/-! ## Helper lemmas: prefixes, suffixes, infixes of character lists -/

theorem pfx_cons_elim {a c : Char} {l m : List Char} (h : (a :: l) <+: (c :: m)) :
    a = c ∧ l <+: m := by
  rcases h with ⟨u, hu⟩
  rw [List.cons_append] at hu
  injection hu with h1 h2
  exact ⟨h1, ⟨u, h2⟩⟩

theorem ifx_nil_elim {t : List Char} (h : t <:+: ([] : List Char)) : t = [] := by
  rcases h with ⟨s, u, hsu⟩
  rcases List.append_eq_nil.mp ( List.append_eq_nil.mp hsu).1 with ⟨-, h1⟩
  exact h1

theorem ifx_cons_elim {t : List Char} {c : Char} {m : List Char} (h : t <:+: (c :: m)) :
    t <+: (c :: m) ∨ t <:+: m := by
  rcases h with ⟨s, u, hsu⟩
  cases s with
  | nil =>
    left
    exact ⟨u, by simpa using hsu⟩
  | cons a s2 =>
    right
    have h2 : a :: (s2 ++ t ++ u) = c :: m := by simpa using hsu
    exact ⟨s2, u, (List.cons_eq_cons.mp h2).2⟩

theorem ifx_cons_intro {t m : List Char} (c : Char) (h : t <:+: m) : t <:+: (c :: m) := by
  rcases h with ⟨s, u, hsu⟩
  exact ⟨c :: s, u, by simp [hsu]⟩

theorem pfx_ifx {t m : List Char} (h : t <+: m) : t <:+: m := by
  rcases h with ⟨u, hu⟩
  exact ⟨[], u, by simpa using hu⟩

theorem ifx_trans {a b c : List Char} (h1 : a <:+: b) (h2 : b <:+: c) : a <:+: c := by
  rcases h1 with ⟨s1, u1, e1⟩
  rcases h2 with ⟨s2, u2, e2⟩
  refine ⟨s2 ++ s1, u1 ++ u2, ?_⟩
  rw [← e2, ← e1]
  simp [List.append_assoc]

theorem sfx_cons {t m : List Char} (c : Char) (h : t <:+ m) : t <:+ (c :: m) := by
  rcases h with ⟨u, hu⟩
  exact ⟨c :: u, by simp [hu]⟩

theorem sfx_refl (l : List Char) : l <:+ l := ⟨[], rfl⟩

theorem head?_of_pfx {a l : List Char} (h : a <+: l) (ha : a ≠ []) :
    a.head? = l.head? := by
  rcases h with ⟨t, ht⟩
  cases a with
  | nil => exact absurd rfl ha
  | cons x xs => rw [← ht]; rfl

theorem pfx_sfx_ifx {a t s : List Char} (h1 : a <+: t) (h2 : t <:+ s) : a <:+: s := by
  rcases h1 with ⟨x, hx⟩
  rcases h2 with ⟨y, hy⟩
  refine ⟨y, x, ?_⟩
  rw [List.append_assoc, hx]
  exact hy

theorem sfx_rev_pfx {a l : List Char} (h : a <:+ l) : a.reverse <+: l.reverse := by
  rcases h with ⟨t, ht⟩
  exact ⟨t.reverse, by rw [← List.reverse_append, ht]⟩

theorem str_data_append (s t : String) : (s ++ t).data = s.data ++ t.data := rfl

theorem pfx_get? {a b : List Char} (h : a <+: b) {i : Nat} (hi : i < a.length) :
    b[i]? = a[i]? := by
  rcases h with ⟨t, ht⟩
  rw [← ht]
  exact List.getElem?_append_left hi

/-! ## Helper lemmas: `removeAll` -/

theorem removeAllGo_fuel (pat : List Char) :
    ∀ (n : Nat) (s : List Char), s.length ≤ n → ∀ (m : Nat), s.length ≤ m →
      removeAllGo pat n s = removeAllGo pat m s := by
  intro n
  induction n with
  | zero =>
    intro s hs m _
    have : s = [] := List.length_eq_zero.mp (Nat.le_zero.mp hs)
    subst this
    cases m <;> rfl
  | succ n ih =>
    intro s hs m hm
    cases s with
    | nil => cases m <;> rfl
    | cons c rest =>
      cases m with
      | zero => simp at hm
      | succ m2 =>
        simp only [List.length_cons] at hs hm
        by_cases h : pat ≠ [] ∧ pat <+: (c :: rest)
        · have hp : 0 < pat.length := List.length_pos.mpr h.1
          have hd : ((c :: rest).drop pat.length).length ≤ rest.length := by
            simp only [List.length_drop, List.length_cons]
            omega
          simp only [removeAllGo, if_pos h]
          exact ih _ (le_trans hd (by omega)) m2 (le_trans hd (by omega))
        · simp only [removeAllGo, if_neg h]
          rw [ih rest (by omega) m2 (by omega)]

theorem removeAll_nil (pat : List Char) : removeAll pat [] = [] := rfl

theorem removeAll_cons_hit {pat : List Char} {c : Char} {rest : List Char}
    (h1 : pat ≠ []) (h2 : pat <+: (c :: rest)) :
    removeAll pat (c :: rest) = removeAll pat ((c :: rest).drop pat.length) := by
  have hp : 0 < pat.length := List.length_pos.mpr h1
  have hd : ((c :: rest).drop pat.length).length ≤ rest.length := by
    simp only [List.length_drop, List.length_cons]
    omega
  show removeAllGo pat (rest.length + 1) (c :: rest) = _
  simp only [removeAllGo, if_pos (And.intro h1 h2)]
  exact removeAllGo_fuel pat rest.length _ hd _ le_rfl

theorem removeAll_cons_miss {pat : List Char} {c : Char} {rest : List Char}
    (h : ¬ (pat ≠ [] ∧ pat <+: (c :: rest))) :
    removeAll pat (c :: rest) = c :: removeAll pat rest := by
  show removeAllGo pat (rest.length + 1) (c :: rest) = _
  simp only [removeAllGo, if_neg h]
  rfl

theorem removeAll_noop {pat : List Char} {s : List Char} (h : ¬ pat <:+: s) :
    removeAll pat s = s := by
  induction s with
  | nil => exact removeAll_nil pat
  | cons c rest ih =>
    rw [removeAll_cons_miss, ih fun hr => h (ifx_cons_intro c hr)]
    rintro ⟨-, h2⟩
    exact h (pfx_ifx h2)

/-! ## Helper lemmas: the fence never survives `removeAll fence` -/

theorem fence_eq : fence = [bt, bt, bt] := by decide

theorem fence_ne_nil : fence ≠ [] := by decide

theorem fence_len : fence.length = 3 := by decide

theorem not_fence_pfx_one {c : Char} {m : List Char} (hc : c ≠ bt) :
    ¬ fence <+: (c :: m) := by
  intro h
  rw [fence_eq] at h
  exact hc (pfx_cons_elim h).1.symm

theorem not_fence_pfx_two {c : Char} {m : List Char} (hc : c ≠ bt) :
    ¬ fence <+: (bt :: c :: m) := by
  intro h
  rw [fence_eq] at h
  exact hc (pfx_cons_elim (pfx_cons_elim h).2).1.symm

theorem not_fence_pfx_three {c : Char} {m : List Char} (hc : c ≠ bt) :
    ¬ fence <+: (bt :: bt :: c :: m) := by
  intro h
  rw [fence_eq] at h
  exact hc (pfx_cons_elim (pfx_cons_elim (pfx_cons_elim h).2).2).1.symm

/-- Deleting occurrences of the fence keeps a non-backtick head in place. -/
theorem removeAll_fence_head {c : Char} {rest : List Char} (hc : c ≠ bt) :
    removeAll fence (c :: rest) = c :: removeAll fence rest :=
  removeAll_cons_miss fun hh => not_fence_pfx_one hc hh.2

/-- Core property behind idempotence of the sanitizer: the output of
`removeAll fence` contains no occurrence of the fence. -/
theorem no_fence_in_removeAll :
    ∀ (n : Nat) (s : List Char), s.length ≤ n → ¬ fence <:+: removeAll fence s := by
  intro n
  induction n with
  | zero =>
    intro s hs h
    have hnil : s = [] := List.length_eq_zero.mp (Nat.le_zero.mp hs)
    subst hnil
    rw [removeAll_nil] at h
    exact fence_ne_nil (ifx_nil_elim h)
  | succ n ih =>
    intro s hs
    match s with
    | [] =>
      rw [removeAll_nil]
      intro h
      exact fence_ne_nil (ifx_nil_elim h)
    | c :: rest =>
      simp only [List.length_cons] at hs
      by_cases hpf : fence <+: (c :: rest)
      · rw [removeAll_cons_hit fence_ne_nil hpf]
        rcases hpf with ⟨u, hu⟩
        have hdrop : (c :: rest).drop fence.length = u := by
          rw [← hu, List.drop_left]
        rw [hdrop]
        apply ih
        have hlen : fence.length + u.length = rest.length + 1 := by
          rw [← List.length_append, hu, List.length_cons]
        rw [fence_len] at hlen
        omega
      · rw [removeAll_cons_miss fun hh => hpf hh.2]
        by_cases hc : c = bt
        · subst hc
          match rest with
          | [] =>
            rw [removeAll_nil]
            decide
          | d :: rest2 =>
            simp only [List.length_cons] at hs
            by_cases hd : d = bt
            · subst hd
              match rest2 with
              | [] => decide
              | e :: rest3 =>
                simp only [List.length_cons] at hs
                have he : e ≠ bt := by
                  intro hbe
                  subst hbe
                  exact hpf (by rw [fence_eq]; exact ⟨rest3, rfl⟩)
                rw [removeAll_cons_miss fun hh => not_fence_pfx_two he hh.2,
                  removeAll_fence_head he]
                intro h
                rcases ifx_cons_elim h with h1 | h1
                · exact not_fence_pfx_three he h1
                rcases ifx_cons_elim h1 with h2 | h2
                · exact not_fence_pfx_two he h2
                rcases ifx_cons_elim h2 with h3 | h3
                · exact not_fence_pfx_one he h3
                · exact ih rest3 (by omega) h3
            · rw [removeAll_fence_head hd]
              intro h
              rcases ifx_cons_elim h with h1 | h1
              · exact not_fence_pfx_two hd h1
              rcases ifx_cons_elim h1 with h2 | h2
              · exact not_fence_pfx_one hd h2
              · exact ih rest2 (by omega) h2
        · intro h
          rcases ifx_cons_elim h with h1 | h1
          · exact not_fence_pfx_one hc h1
          · exact ih rest (by omega) h1

/-! ## Helper lemmas: `pstrip` -/

theorem dropWhile_head_not {p : Char → Bool} :
    ∀ (l : List Char) {c : Char}, (l.dropWhile p).head? = some c → p c = false := by
  intro l
  induction l with
  | nil =>
    intro c h
    simp [List.dropWhile] at h
  | cons a rest ih =>
    intro c h
    by_cases hp : p a
    · rw [List.dropWhile_cons_of_pos hp] at h
      exact ih h
    · rw [List.dropWhile_cons_of_neg hp] at h
      simp only [List.head?_cons, Option.some.injEq] at h
      subst h
      exact Bool.eq_false_iff.mpr hp

theorem dropWhile_eq_self_of_head {p : Char → Bool} {l : List Char}
    (h : ∀ c, l.head? = some c → p c = false) : l.dropWhile p = l := by
  cases l with
  | nil => rfl
  | cons a rest => rw [List.dropWhile_cons_of_neg (by simp [h a rfl])]

theorem dropWhile_sfx (p : Char → Bool) : ∀ (l : List Char), l.dropWhile p <:+ l := by
  intro l
  induction l with
  | nil => exact sfx_refl []
  | cons a rest ih =>
    by_cases hp : p a
    · rw [List.dropWhile_cons_of_pos hp]
      exact sfx_cons a ih
    · rw [List.dropWhile_cons_of_neg hp]

theorem pstrip_ifx (s : List Char) : pstrip s <:+: s := by
  unfold pstrip
  have h1 : s.dropWhile isPyWs <:+ s := dropWhile_sfx isPyWs s
  have h2 : (s.dropWhile isPyWs).reverse.dropWhile isPyWs <:+
      (s.dropWhile isPyWs).reverse := dropWhile_sfx isPyWs _
  have h3 := sfx_rev_pfx h2
  rw [List.reverse_reverse] at h3
  exact pfx_sfx_ifx h3 h1

theorem pstrip_idem (s : List Char) : pstrip (pstrip s) = pstrip s := by
  unfold pstrip
  by_cases hB : (s.dropWhile isPyWs).reverse.dropWhile isPyWs = []
  · rw [hB]
    rfl
  · -- the reversed stripped list: nonempty, already whitespace-free at both ends
    have hBpfx : ((s.dropWhile isPyWs).reverse.dropWhile isPyWs).reverse <+:
        s.dropWhile isPyWs := by
      have := sfx_rev_pfx (dropWhile_sfx isPyWs (s.dropWhile isPyWs).reverse)
      rwa [List.reverse_reverse] at this
    have hBrev_ne : ((s.dropWhile isPyWs).reverse.dropWhile isPyWs).reverse ≠ [] := by
      simpa using hB
    -- step 1: the front of `B.reverse` is the front of `dropWhile isPyWs s`
    have hhead : ∀ c, ((s.dropWhile isPyWs).reverse.dropWhile isPyWs).reverse.head? = some c →
        isPyWs c = false := by
      intro c hc
      rw [head?_of_pfx hBpfx hBrev_ne] at hc
      exact dropWhile_head_not s hc
    rw [dropWhile_eq_self_of_head hhead, List.reverse_reverse,
      dropWhile_eq_self_of_head (fun c hc => dropWhile_head_not _ hc)]

/-! ## Helper lemmas: the sanitizer -/

theorem fence_pfx_fenceJson : fence <+: fenceJson := ⟨"json".data, rfl⟩

/-- The sanitized output contains no fence marker at all. -/
theorem sanitize_chars_no_fence (s : List Char) : ¬ fence <:+: sanitize_chars s := by
  intro h
  exact no_fence_in_removeAll (removeAll fenceJson s).length _ le_rfl
    (ifx_trans h (pstrip_ifx _))

theorem sanitize_chars_idem (s : List Char) :
    sanitize_chars (sanitize_chars s) = sanitize_chars s := by
  have hNoFence := sanitize_chars_no_fence s
  have hNoFenceJson : ¬ fenceJson <:+: sanitize_chars s := fun h =>
    hNoFence (ifx_trans (pfx_ifx fence_pfx_fenceJson) h)
  show pstrip (removeAll fence (removeAll fenceJson (sanitize_chars s))) = _
  rw [removeAll_noop hNoFenceJson, removeAll_noop hNoFence]
  exact pstrip_idem _

/-! ## Helper lemmas: `merge_capabilities` -/

theorem mergeFold_L0 :
    ∀ (chunks : List Batch) (init : Batch),
      (chunks.foldl mergeStep init).L0_capabilities =
        init.L0_capabilities ++ (chunks.map fun c => c.L0_capabilities).flatten := by
  intro chunks
  induction chunks with
  | nil => intro init; simp
  | cons b rest ih =>
    intro init
    rw [List.foldl_cons, ih]
    simp [mergeStep]

theorem mergeFold_L0_count :
    ∀ (chunks : List Batch) (init : Batch),
      (chunks.foldl mergeStep init).L0_capabilities_count =
        init.L0_capabilities_count + (chunks.map fun c => c.L0_capabilities_count).sum := by
  intro chunks
  induction chunks with
  | nil => intro init; simp
  | cons b rest ih =>
    intro init
    rw [List.foldl_cons, ih]
    simp [mergeStep, add_assoc]

theorem mergeFold_L1_count :
    ∀ (chunks : List Batch) (init : Batch),
      (chunks.foldl mergeStep init).L1_capabilities_count =
        init.L1_capabilities_count + (chunks.map fun c => c.L1_capabilities_count).sum := by
  intro chunks
  induction chunks with
  | nil => intro init; simp
  | cons b rest ih =>
    intro init
    rw [List.foldl_cons, ih]
    simp [mergeStep, add_assoc]

theorem mergeFold_L2_count :
    ∀ (chunks : List Batch) (init : Batch),
      (chunks.foldl mergeStep init).L2_capabilities_count =
        init.L2_capabilities_count + (chunks.map fun c => c.L2_capabilities_count).sum := by
  intro chunks
  induction chunks with
  | nil => intro init; simp
  | cons b rest ih =>
    intro init
    rw [List.foldl_cons, ih]
    simp [mergeStep, add_assoc]

/-! ## Helper lemmas: the L2 attacher -/

theorem attach_l1_mem (gen : L1Item → Except String (List PyVal)) :
    ∀ (l1s l1s' : List L1Item), attach_l1 gen l1s = .ok l1s' →
      ∀ l1' ∈ l1s', ∃ l1 xs, gen l1 = .ok xs ∧
        l1' = { l1 with L2_capabilities := some xs } := by
  intro l1s
  induction l1s with
  | nil =>
    intro l1s' h
    simp only [attach_l1] at h
    injection h with h
    subst h
    intro l1' h1
    exact absurd h1 (List.not_mem_nil l1')
  | cons l1 rest ih =>
    intro l1s' h
    simp only [attach_l1] at h
    cases hg : gen l1 with
    | error e => rw [hg] at h; exact absurd h (by simp)
    | ok xs =>
      rw [hg] at h
      cases hr : attach_l1 gen rest with
      | error e => rw [hr] at h; exact absurd h (by simp)
      | ok rest' =>
        rw [hr] at h
        injection h with h
        subst h
        intro l1' h1
        rcases List.mem_cons.mp h1 with h2 | h2
        · exact ⟨l1, xs, hg, h2⟩
        · exact ih rest' hr l1' h2

theorem attach_l0_mem (gen : L1Item → Except String (List PyVal)) :
    ∀ (l0s l0s' : List L0Item), attach_l0 gen l0s = .ok l0s' →
      ∀ l0' ∈ l0s', ∃ (l0 : L0Item) (l1s' : List L1Item),
        attach_l1 gen l0.L1_capabilities = .ok l1s' ∧
        l0' = { l0 with L1_capabilities := l1s' } := by
  intro l0s
  induction l0s with
  | nil =>
    intro l0s' h
    simp only [attach_l0] at h
    injection h with h
    subst h
    intro l0' h1
    exact absurd h1 (List.not_mem_nil l0')
  | cons l0 rest ih =>
    intro l0s' h
    simp only [attach_l0] at h
    cases hg : attach_l1 gen l0.L1_capabilities with
    | error e => rw [hg] at h; exact absurd h (by simp)
    | ok l1s =>
      rw [hg] at h
      cases hr : attach_l0 gen rest with
      | error e => rw [hr] at h; exact absurd h (by simp)
      | ok rest' =>
        rw [hr] at h
        injection h with h
        subst h
        intro l0' h1
        rcases List.mem_cons.mp h1 with h2 | h2
        · exact ⟨l0, l1s, hg, h2⟩
        · exact ih rest' hr l0' h2

/-- Every L1 of a successfully attached tree carries `some xs` with
`gen l1 = .ok xs` for some pre-attachment node `l1`. -/
theorem merge_l2_allL1 (gen : L1Item → Except String (List PyVal))
    (cc cc' : Industry) (h : merge_l2_capabilities gen cc = .ok cc') :
    ∀ l1' ∈ cc'.allL1, ∃ l1 xs, gen l1 = .ok xs ∧
      l1' = { l1 with L2_capabilities := some xs } := by
  intro l1' h1
  unfold merge_l2_capabilities at h
  cases ha : attach_l0 gen cc.L0_capabilities with
  | error e => rw [ha] at h; exact absurd h (by simp)
  | ok l0s =>
    rw [ha] at h
    injection h with h
    subst h
    unfold Industry.allL1 at h1
    rcases List.mem_flatten.mp h1 with ⟨block, hb, hmem⟩
    rcases List.mem_map.mp hb with ⟨l0', hl0', rfl⟩
    rcases attach_l0_mem gen cc.L0_capabilities l0s ha l0' hl0' with ⟨l0, l1s', h2, rfl⟩
    exact attach_l1_mem gen l0.L1_capabilities l1s' h2 l1' hmem

/-! ## Helper lemmas: the flatteners -/

/-- The defensive L2 loop is a filter followed by a map. -/
theorem st_l2_eq_filter (cc : Industry) (l0 : L0Item) (l1 : L1Item) :
    ∀ (l2s : List PyVal),
      st_rows_l2 cc l0 l1 l2s = (l2s.filter l2WellFormed).map (rowOfL2 cc l0 l1) := by
  intro l2s
  induction l2s with
  | nil => rfl
  | cons l2 rest ih =>
    cases l2 with
    | dict fs =>
      by_cases hwf : hasKey fs "L2_capability" && hasKey fs "L2_capability_description"
      · simp only [st_rows_l2, if_pos hwf, ih, List.filter_cons,
          show l2WellFormed (.dict fs) = true from hwf, List.map_cons]
        rfl
      · simp only [st_rows_l2, if_neg hwf, ih, List.filter_cons,
          show l2WellFormed (.dict fs) = false from Bool.eq_false_iff.mpr hwf]
        rfl
    | str v => simpa [st_rows_l2, List.filter_cons, l2WellFormed] using ih
    | numLit v => simpa [st_rows_l2, List.filter_cons, l2WellFormed] using ih
    | bool v => simpa [st_rows_l2, List.filter_cons, l2WellFormed] using ih
    | none_ => simpa [st_rows_l2, List.filter_cons, l2WellFormed] using ih
    | list v => simpa [st_rows_l2, List.filter_cons, l2WellFormed] using ih

/-- When the undefended app.py L2 loop succeeds, it produced exactly the
rows of the defended streamlit loop. -/
theorem app_l2_agree (cc : Industry) (l0 : L0Item) (l1 : L1Item) :
    ∀ (l2s : List PyVal) (rows : List (List PyVal)),
      app_rows_l2 cc l0 l1 l2s = .ok rows → rows = st_rows_l2 cc l0 l1 l2s := by
  intro l2s
  induction l2s with
  | nil =>
    intro rows h
    injection h with h
    exact h.symm
  | cons l2 rest ih =>
    intro rows h
    cases l2 with
    | dict fs =>
      simp only [app_rows_l2] at h
      cases hk1 : List.lookup "L2_capability" fs with
      | none => rw [hk1] at h; exact absurd h (by simp)
      | some a =>
        rw [hk1] at h
        cases hk2 : List.lookup "L2_capability_description" fs with
        | none => rw [hk2] at h; exact absurd h (by simp)
        | some b =>
          rw [hk2] at h
          cases hr : app_rows_l2 cc l0 l1 rest with
          | error e => rw [hr] at h; exact absurd h (by simp)
          | ok rs =>
            rw [hr] at h
            injection h with h
            subst h
            have hwf : (hasKey fs "L2_capability" &&
                hasKey fs "L2_capability_description") = true := by
              simp [hasKey, hk1, hk2]
            simp only [st_rows_l2, if_pos hwf, ih rs hr, mkRow, hk1, hk2, Option.getD_some]
    | str v => exact absurd h (by simp [app_rows_l2])
    | numLit v => exact absurd h (by simp [app_rows_l2])
    | bool v => exact absurd h (by simp [app_rows_l2])
    | none_ => exact absurd h (by simp [app_rows_l2])
    | list v => exact absurd h (by simp [app_rows_l2])

/-- When the app.py L1 loop succeeds it agrees with the streamlit one. -/
theorem app_l1_agree (cc : Industry) (l0 : L0Item) :
    ∀ (l1s : List L1Item) (rows : List (List PyVal)),
      app_rows_l1 cc l0 l1s = .ok rows → rows = st_rows_l1 cc l0 l1s := by
  intro l1s
  induction l1s with
  | nil =>
    intro rows h
    injection h with h
    exact h.symm
  | cons l1 rest ih =>
    intro rows h
    simp only [app_rows_l1] at h
    cases h1 : app_rows_l2 cc l0 l1 (l1.L2_capabilities.getD []) with
    | error e => rw [h1] at h; exact absurd h (by simp)
    | ok rs1 =>
      rw [h1] at h
      cases h2 : app_rows_l1 cc l0 rest with
      | error e => rw [h2] at h; exact absurd h (by simp)
      | ok rs2 =>
        rw [h2] at h
        injection h with h
        subst h
        rw [app_l2_agree cc l0 l1 _ rs1 h1, ih rs2 h2]
        rfl

/-- When the app.py L0 loop succeeds it agrees with the streamlit one. -/
theorem app_l0_agree (cc : Industry) :
    ∀ (l0s : List L0Item) (rows : List (List PyVal)),
      app_rows_l0 cc l0s = .ok rows → rows = st_rows_l0 cc l0s := by
  intro l0s
  induction l0s with
  | nil =>
    intro rows h
    injection h with h
    exact h.symm
  | cons l0 rest ih =>
    intro rows h
    simp only [app_rows_l0] at h
    cases h1 : app_rows_l1 cc l0 l0.L1_capabilities with
    | error e => rw [h1] at h; exact absurd h (by simp)
    | ok rs1 =>
      rw [h1] at h
      cases h2 : app_rows_l0 cc rest with
      | error e => rw [h2] at h; exact absurd h (by simp)
      | ok rs2 =>
        rw [h2] at h
        injection h with h
        subst h
        rw [app_l1_agree cc l0 _ rs1 h1, ih rs2 h2]
        rfl

/-- On well-formed entries the app.py L2 loop succeeds and agrees with the
streamlit one. -/
theorem app_l2_ok_of_wf (cc : Industry) (l0 : L0Item) (l1 : L1Item) :
    ∀ (l2s : List PyVal), (∀ v ∈ l2s, l2WellFormed v = true) →
      app_rows_l2 cc l0 l1 l2s = .ok (st_rows_l2 cc l0 l1 l2s) := by
  intro l2s
  induction l2s with
  | nil => intro _; rfl
  | cons l2 rest ih =>
    intro hwf
    have h2 := hwf l2 (List.mem_cons_self l2 rest)
    have hrest := ih fun v hv => hwf v (List.mem_cons_of_mem l2 hv)
    cases l2 with
    | dict fs =>
      have hk : hasKey fs "L2_capability" = true ∧
          hasKey fs "L2_capability_description" = true := by
        simpa [l2WellFormed] using h2
      rcases Option.isSome_iff_exists.mp hk.1 with ⟨a, ha⟩
      rcases Option.isSome_iff_exists.mp hk.2 with ⟨b, hb⟩
      simp [app_rows_l2, ha, hb, hrest, st_rows_l2, hk.1, hk.2, mkRow]
    | str v => simp [l2WellFormed] at h2
    | numLit v => simp [l2WellFormed] at h2
    | bool v => simp [l2WellFormed] at h2
    | none_ => simp [l2WellFormed] at h2
    | list v => simp [l2WellFormed] at h2

/-- On well-formed trees the app.py L1 loop succeeds. -/
theorem app_l1_ok_of_wf (cc : Industry) (l0 : L0Item) :
    ∀ (l1s : List L1Item),
      (∀ l1 ∈ l1s, ∀ v ∈ l1.L2_capabilities.getD [], l2WellFormed v = true) →
      app_rows_l1 cc l0 l1s = .ok (st_rows_l1 cc l0 l1s) := by
  intro l1s
  induction l1s with
  | nil => intro _; rfl
  | cons l1 rest ih =>
    intro hwf
    have h1 := app_l2_ok_of_wf cc l0 l1 _ (hwf l1 (List.mem_cons_self l1 rest))
    have h2 := ih fun x hx => hwf x (List.mem_cons_of_mem l1 hx)
    simp only [app_rows_l1, h1, h2, st_rows_l1]

/-- On well-formed trees the app.py L0 loop succeeds. -/
theorem app_l0_ok_of_wf (cc : Industry) :
    ∀ (l0s : List L0Item),
      (∀ l0 ∈ l0s, ∀ l1 ∈ l0.L1_capabilities,
        ∀ v ∈ l1.L2_capabilities.getD [], l2WellFormed v = true) →
      app_rows_l0 cc l0s = .ok (st_rows_l0 cc l0s) := by
  intro l0s
  induction l0s with
  | nil => intro _; rfl
  | cons l0 rest ih =>
    intro hwf
    have h1 := app_l1_ok_of_wf cc l0 l0.L1_capabilities (hwf l0 (List.mem_cons_self l0 rest))
    have h2 := ih fun x hx => hwf x (List.mem_cons_of_mem l0 hx)
    simp only [app_rows_l0, h1, h2, st_rows_l0]

/-- An unattached L1 node contributes no rows: the L1 loop only keeps the
nodes whose `L2_capabilities` key is present. -/
theorem st_l1_attached (cc : Industry) (l0 : L0Item) :
    ∀ (l1s : List L1Item),
      st_rows_l1 cc l0 l1s =
        ((l1s.filter fun l1 => l1.L2_capabilities.isSome).map fun l1 =>
          st_rows_l2 cc l0 l1 (l1.L2_capabilities.getD [])).flatten := by
  intro l1s
  induction l1s with
  | nil => rfl
  | cons l1 rest ih =>
    cases hA : l1.L2_capabilities with
    | none => simp [st_rows_l1, hA, List.filter_cons, ih, st_rows_l2]
    | some xs => simp [st_rows_l1, hA, List.filter_cons, ih]

/-- Every data row of the streamlit CSV is `mkRow` of some well-formed
entry. -/
theorem st_row_shape (cc : Industry) :
    ∀ row ∈ st_generate_csv_rows cc,
      ∃ (l0 : L0Item) (l1 : L1Item) (fs : List (String × PyVal)),
        row = mkRow cc l0 l1 fs := by
  intro row hrow
  unfold st_generate_csv_rows at hrow
  generalize cc.L0_capabilities = l0s at hrow
  induction l0s with
  | nil => exact absurd hrow (List.not_mem_nil row)
  | cons l0 rest ih =>
    rcases List.mem_append.mp hrow with h1 | h1
    · clear ih hrow
      generalize l0.L1_capabilities = l1s at h1
      induction l1s with
      | nil => exact absurd h1 (List.not_mem_nil row)
      | cons l1 rest2 ih2 =>
        rcases List.mem_append.mp h1 with h2 | h2
        · clear ih2 h1
          rw [st_l2_eq_filter] at h2
          rcases List.mem_map.mp h2 with ⟨v, hv, rfl⟩
          have hwf : l2WellFormed v = true := (List.mem_filter.mp hv).2
          cases v with
          | dict fs => exact ⟨l0, l1, fs, rfl⟩
          | str w => simp [l2WellFormed] at hwf
          | numLit w => simp [l2WellFormed] at hwf
          | bool w => simp [l2WellFormed] at hwf
          | none_ => simp [l2WellFormed] at hwf
          | list w => simp [l2WellFormed] at hwf
        · exact ih2 h2
    · exact ih h1

/-! ## Claim theorems -/

/-- C1 counterexample: both batches carry non-empty names and descriptions,
yet `merge_capabilities` returns the LAST batch's name/description, not the
first's — "first non-empty wins" is false on the code. -/
theorem C1_cex_last_wins :
    (merge_capabilities [cexBatchA, cexBatchB]).industry = "B" ∧
    (merge_capabilities [cexBatchA, cexBatchB]).industry_description = "second description" ∧
    cexBatchA.industry = "A" ∧ ("B" : String) ≠ "A" ∧
    cexBatchA.industry_description = "first description" ∧
    ("second description" : String) ≠ "first description" :=
  ⟨rfl, rfl, rfl, by decide, rfl, by decide⟩

/-- C1 (amended): for every non-empty sequence of valid parsed batches
(written `chunks ++ [b]`), the merged Industry takes name and description
from the LAST batch (they are overwritten on every loop iteration,
regardless of emptiness), its L0 children are the concatenation of all
batches' L0 children in arrival order, and the three denormalized counters
are the sums of the corresponding fields across the batches. -/
theorem C1_merge_last_wins (chunks : List Batch) (b : Batch) :
    (merge_capabilities (chunks ++ [b])).industry = b.industry ∧
    (merge_capabilities (chunks ++ [b])).industry_description = b.industry_description ∧
    (merge_capabilities (chunks ++ [b])).L0_capabilities =
      ((chunks ++ [b]).map fun c => c.L0_capabilities).flatten ∧
    (merge_capabilities (chunks ++ [b])).L0_capabilities_count =
      ((chunks ++ [b]).map fun c => c.L0_capabilities_count).sum ∧
    (merge_capabilities (chunks ++ [b])).L1_capabilities_count =
      ((chunks ++ [b]).map fun c => c.L1_capabilities_count).sum ∧
    (merge_capabilities (chunks ++ [b])).L2_capabilities_count =
      ((chunks ++ [b]).map fun c => c.L2_capabilities_count).sum := by
  refine ⟨?_, ?_, ?_, ?_, ?_, ?_⟩
  · unfold merge_capabilities
    rw [List.foldl_append]
    rfl
  · unfold merge_capabilities
    rw [List.foldl_append]
    rfl
  · unfold merge_capabilities
    rw [mergeFold_L0]
    rfl
  · unfold merge_capabilities
    rw [mergeFold_L0_count]
    simp [mergeInit]
  · unfold merge_capabilities
    rw [mergeFold_L1_count]
    simp [mergeInit]
  · unfold merge_capabilities
    rw [mergeFold_L2_count]
    simp [mergeInit]

/-- C5: the merged Industry's STRUCTURAL L0 children count (the length of
the concatenated list, computed by traversal) equals the sum of the input
batches' structural L0 counts, independently of the advisory counter
fields. -/
theorem C5_merge_structural_count (chunks : List Batch) :
    (merge_capabilities chunks).L0_capabilities.length =
      (chunks.map fun c => c.L0_capabilities.length).sum := by
  unfold merge_capabilities
  rw [mergeFold_L0]
  simp [List.length_flatten, List.map_map, mergeInit, Function.comp_def]

/-- C6: the response sanitizer is idempotent —
`sanitize(sanitize(x)) = sanitize(x)` for every input string. -/
theorem C6_sanitize_idempotent (x : String) :
    sanitize_response (sanitize_response x) = sanitize_response x := by
  show String.mk (sanitize_chars (String.mk (sanitize_chars x.data)).data) = _
  rw [show (String.mk (sanitize_chars x.data)).data = sanitize_chars x.data from rfl,
    sanitize_chars_idem]
  rfl

/-- C7 counterexample: `" a "` contains no fence marker, yet it does NOT
pass through unchanged — the sanitizer always strips surrounding
whitespace. -/
theorem C7_cex_whitespace_stripped :
    ¬ fence <:+: (" a ").data ∧ sanitize_response " a " = "a" ∧
      (" a " : String) ≠ "a" :=
  ⟨by decide, rfl, by decide⟩

/-- C7 (amended): the sanitizer removes fence markers and surrounding
whitespace; on an input containing no fence marker it reduces to exactly a
whitespace strip, and passes the text through unchanged only when there is
additionally no leading/trailing whitespace. -/
theorem C7_sanitize_no_fence (x : String) (h : ¬ fence <:+: x.data) :
    sanitize_response x = String.mk (pstrip x.data) ∧
      (pstrip x.data = x.data → sanitize_response x = x) := by
  have h1 : removeAll fenceJson x.data = x.data :=
    removeAll_noop fun hf => h (ifx_trans (pfx_ifx fence_pfx_fenceJson) hf)
  have h2 : removeAll fence x.data = x.data := removeAll_noop h
  constructor
  · show String.mk (pstrip (removeAll fence (removeAll fenceJson x.data))) = _
    rw [h1, h2]
  · intro hp
    show String.mk (pstrip (removeAll fence (removeAll fenceJson x.data))) = x
    rw [h1, h2, hp]

/-- C7 witness: a fence-free, whitespace-free string passes unchanged. -/
theorem C7_witness : sanitize_response "abc" = "abc" :=
  (C7_sanitize_no_fence "abc" (by decide)).2 rfl

/-- C2 counterexample: with a generator validly returning the empty JSON
array, the attach run SUCCEEDS and the resulting L1 node carries an
attached but EMPTY L2 sequence — refuting "every L1 node has a non-empty
L2 children sequence after a successful run". -/
theorem C2_cex_empty_attach :
    merge_l2_capabilities emptyGenC2 cexIndC2 = .ok cexResC2 ∧
    (cexResC2.allL1.map fun l1 => l1.L2_capabilities) = [some []] :=
  ⟨rfl, rfl⟩

/-- C2 (amended): after a successful attach run every L1 node carries an
ATTACHED L2 sequence (the key is present, holding the generator's response
verbatim); the sequence is non-empty for every node provided the generator
never returns an empty array, but an empty (still valid) response is
attached as an empty sequence. -/
theorem C2_attach_all (gen : L1Item → Except String (List PyVal))
    (cc cc' : Industry) (h : merge_l2_capabilities gen cc = .ok cc') :
    (∀ l1 ∈ cc'.allL1, l1.L2_capabilities.isSome = true) ∧
    ((∀ l1 xs, gen l1 = .ok xs → xs ≠ []) →
      ∀ l1 ∈ cc'.allL1, l1.L2_capabilities ≠ some []) := by
  constructor
  · intro l1' h1
    rcases merge_l2_allL1 gen cc cc' h l1' h1 with ⟨l1, xs, -, rfl⟩
    rfl
  · intro hne l1' h1
    rcases merge_l2_allL1 gen cc cc' h l1' h1 with ⟨l1, xs, hg, rfl⟩
    intro hcontra
    have hxs : xs = [] := by
      have h2 : some xs = some ([] : List PyVal) := hcontra
      injection h2
    exact hne l1 xs hg hxs

/-- C2 witness: a successful run with a generator returning a non-empty
array leaves the L1 node with a non-empty attached sequence. -/
theorem C2_witness :
    (⟨"A1", "d1", some [PyVal.dict [("L2_capability", PyVal.str "X"),
      ("L2_capability_description", PyVal.str "Y")]]⟩ : L1Item).L2_capabilities ≠
      some [] :=
  (C2_attach_all witGenC2 witIndC2 witResC2 rfl).2
    (fun l1 xs hg => by
      have h2 : xs = [PyVal.dict [("L2_capability", PyVal.str "X"),
          ("L2_capability_description", PyVal.str "Y")]] := by
        injection hg with h3
        exact h3.symm
      subst h2
      simp)
    _ (List.mem_singleton.mpr rfl)

/-- C3 counterexample: on non-JSON text app.py raises the SAME RuntimeError
it raises for a failing external call (so there is no distinct
MalformedResponseError, and the generation error is NOT raised "exactly
when" the call fails), the streamlit variant propagates the raw
JSONDecodeError, and a parsed value without the expected top-level keys (a
bare array) is accepted unchecked. -/
theorem C3_cex_error_routing :
    generate_capabilities_chunk (.ok "not json") = .error (.runtimeError apiErrMsg) ∧
    generate_capabilities_chunk (.error "boom") = .error (.runtimeError apiErrMsg) ∧
    generate_capabilities_chunk_st (.ok "not json") = .error .jsonDecodeError ∧
    generate_capabilities_chunk (.ok "[1, 2]") =
      .ok (.list [.numLit "1", .numLit "2"]) :=
  ⟨rfl, rfl, rfl, rfl⟩

/-- C3 (amended): app.py's `generate_capabilities_chunk` raises the same
RuntimeError both when the external call fails and when the sanitized text
is not valid JSON; the streamlit variant lets the raw decode error
propagate; any value that parses is returned with no validation of the
top-level keys. -/
theorem C3_chunk_error_routing (callResult : Except String String) :
    (∀ m, callResult = .error m →
      generate_capabilities_chunk callResult = .error (.runtimeError apiErrMsg)) ∧
    (∀ t, callResult = .ok t → json_loads (sanitize_response t) = none →
      generate_capabilities_chunk callResult = .error (.runtimeError apiErrMsg) ∧
      generate_capabilities_chunk_st callResult = .error .jsonDecodeError) ∧
    (∀ t v, callResult = .ok t → json_loads (sanitize_response t) = some v →
      generate_capabilities_chunk callResult = .ok v ∧
      generate_capabilities_chunk_st callResult = .ok v) := by
  refine ⟨?_, ?_, ?_⟩
  · rintro m rfl
    rfl
  · rintro t rfl hl
    exact ⟨by simp [generate_capabilities_chunk, hl],
      by simp [generate_capabilities_chunk_st, hl]⟩
  · rintro t v rfl hl
    exact ⟨by simp [generate_capabilities_chunk, hl],
      by simp [generate_capabilities_chunk_st, hl]⟩

/-- C3 witness: the routing theorem applied at a concrete unparseable
response text. -/
theorem C3_witness :
    generate_capabilities_chunk (.ok "not json") = .error (.runtimeError apiErrMsg) ∧
    generate_capabilities_chunk_st (.ok "not json") = .error .jsonDecodeError :=
  (C3_chunk_error_routing (.ok "not json")).2.1 "not json" rfl rfl

/-- C4 counterexample: app.py's `generate_csv` FAILS with a KeyError on a
present but malformed L2 entry (an object missing the description field)
instead of skipping it. -/
theorem C4_cex_app_raises :
    app_generate_csv cexIndC4 = .error .keyError ∧
    (cexIndC4.allL1.map fun l1 => (l1.L2_capabilities.getD []).map l2WellFormed) =
      [[false]] :=
  ⟨rfl, rfl⟩

/-- C4 (amended): the streamlit flattener emits exactly one row per
WELL-FORMED L2 entry — malformed entries are skipped, never emitted, and
never cause a failure — and whenever app.py's flattener returns at all it
returns exactly the same rows; app.py however RAISES on a malformed entry
rather than skipping it. -/
theorem C4_flattener_filters (cc : Industry) :
    st_generate_csv_rows cc = filteredRows cc ∧
    (∀ rows, app_generate_csv_rows cc = .ok rows → rows = st_generate_csv_rows cc) := by
  constructor
  · unfold st_generate_csv_rows filteredRows
    generalize cc.L0_capabilities = l0s
    induction l0s with
    | nil => rfl
    | cons l0 rest ih =>
      simp only [st_rows_l0, ih, List.map_cons, List.flatten_cons]
      congr 1
      generalize l0.L1_capabilities = l1s
      induction l1s with
      | nil => rfl
      | cons l1 rest2 ih2 =>
        simp only [st_rows_l1, ih2, List.map_cons, List.flatten_cons]
        congr 1
        exact st_l2_eq_filter cc l0 l1 _
  · intro rows h
    exact app_l0_agree cc cc.L0_capabilities rows h

/-- C4 witness: the agreement applied at a tree with one well-formed L2
entry, where app.py's flattener succeeds with exactly that row. -/
theorem C4_witness :
    st_generate_csv_rows witIndC4 = filteredRows witIndC4 ∧
    witRowsC4 = st_generate_csv_rows witIndC4 :=
  ⟨(C4_flattener_filters witIndC4).1, (C4_flattener_filters witIndC4).2 witRowsC4 rfl⟩

set_option maxRecDepth 8192 in
/-- C8 counterexample: the header literal claimed by the specification
(with a space after each comma) is NOT a prefix of the CSV actually
produced, whose header line separates columns by bare commas. -/
theorem C8_cex_header :
    ¬ claimedHeader.data <+: (st_generate_csv cexIndC8).data ∧
    st_generate_csv cexIndC8 =
      "Industry,Industry Description,L0 Capability,L0 Capability Description,L0 Capability Level,L1 Capability,L1 Capability Description,L1 Capability Level,L2 Capability,L2 Capability Description,L2 Capability Level\r\n" := by
  constructor
  · intro h
    have h9 := pfx_get? h (i := 9) (by decide)
    have hA : (st_generate_csv cexIndC8).data[9]? = some 'I' := by decide
    have hB : claimedHeader.data[9]? = some ' ' := by decide
    rw [hA, hB] at h9
    exact absurd h9 (by decide)
  · rfl

/-- C8 (amended): the CSV begins with the 11-column header line (columns in
the claimed order, separated by bare commas, CRLF-terminated), and every
data row has exactly 11 fields carrying the literal strings "0", "1", "2"
at positions 5, 8 and 11. -/
theorem C8_header_and_levels (cc : Industry) :
    (csvLine csvHeaders).data <+: (st_generate_csv cc).data ∧
    ∀ row ∈ st_generate_csv_rows cc,
      row.length = 11 ∧ row[4]? = some (PyVal.str "0") ∧
      row[7]? = some (PyVal.str "1") ∧ row[10]? = some (PyVal.str "2") := by
  constructor
  · refine ⟨(String.join ((st_generate_csv_rows cc).map fun r =>
      csvLine (r.map pyStr))).data, ?_⟩
    rw [← str_data_append]
    rfl
  · intro row hrow
    rcases st_row_shape cc row hrow with ⟨l0, l1, fs, rfl⟩
    exact ⟨rfl, rfl, rfl, rfl⟩

/-- C8 witness: the row facts applied at a concrete one-row tree. -/
theorem C8_witness :
    witRowC8.length = 11 ∧ witRowC8[4]? = some (PyVal.str "0") ∧
    witRowC8[7]? = some (PyVal.str "1") ∧ witRowC8[10]? = some (PyVal.str "2") :=
  (C8_header_and_levels witIndC8).2 witRowC8 (List.mem_singleton.mpr rfl)

/-- C9: every data row yielded by `stream_csv` carries the constant literal
string "Industry Description" as its second field, regardless of the tree's
actual industry description. -/
theorem C9_stream_constant_description (cc : Industry) :
    ∀ row ∈ (stream_csv_rows cc).tail, row[1]? = some "Industry Description" := by
  intro row hrow
  unfold stream_csv_rows at hrow
  simp only [List.tail_cons] at hrow
  rcases List.mem_flatten.mp hrow with ⟨block, hb, hmem⟩
  rcases List.mem_map.mp hb with ⟨l0, -, rfl⟩
  rcases List.mem_map.mp hmem with ⟨l1, -, rfl⟩
  rfl

/-- C9 witness: applied at a tree whose actual description differs from the
constant string. -/
theorem C9_witness :
    (stream_csv_row witIndC9 ⟨"A9", "da9", [⟨"A91", "d91", none⟩]⟩
      ⟨"A91", "d91", none⟩)[1]? = some "Industry Description" ∧
    witIndC9.industry_description = "actual industry description" :=
  ⟨C9_stream_constant_description witIndC9 _ (List.mem_singleton.mpr rfl), rfl⟩

/-- C10 counterexample: a partial tree in which one L1 lacks the
"L2_capabilities" key, yet app.py's `generate_csv` FAILS — the attached
sibling carries a malformed (non-dict) entry. -/
theorem C10_cex_partial_fails :
    (cexIndC10.allL1.map fun l1 => l1.L2_capabilities.isNone) = [true, false] ∧
    app_generate_csv cexIndC10 = .error .typeError :=
  ⟨rfl, rfl⟩

/-- C10 (amended): on a partial tree (some L1 without the key) the
streamlit flattener never fails and its rows come only from attached L1
nodes — an L1 lacking the key contributes zero rows; app.py's flattener
does the same PROVIDED every attached entry is well-formed (with a
malformed attached entry elsewhere it raises instead). -/
theorem C10_partial_tree (cc : Industry)
    (_hmissing : ∃ l1 ∈ cc.allL1, l1.L2_capabilities = none) :
    st_generate_csv_rows cc = attachedRows cc ∧
    ((∀ l1 ∈ cc.allL1, ∀ v ∈ l1.L2_capabilities.getD [], l2WellFormed v = true) →
      app_generate_csv cc = .ok (st_generate_csv cc)) := by
  constructor
  · unfold st_generate_csv_rows attachedRows
    generalize cc.L0_capabilities = l0s
    induction l0s with
    | nil => rfl
    | cons l0 rest ih =>
      simp only [st_rows_l0, ih, List.map_cons, List.flatten_cons]
      congr 1
      exact st_l1_attached cc l0 _
  · intro hwf
    have h0 : ∀ l0 ∈ cc.L0_capabilities, ∀ l1 ∈ l0.L1_capabilities,
        ∀ v ∈ l1.L2_capabilities.getD [], l2WellFormed v = true := by
      intro l0 h1 l1 h2
      refine hwf l1 ?_
      unfold Industry.allL1
      exact List.mem_flatten.mpr ⟨l0.L1_capabilities, List.mem_map.mpr ⟨l0, h1, rfl⟩, h2⟩
    unfold app_generate_csv st_generate_csv
    rw [show app_generate_csv_rows cc = .ok (st_rows_l0 cc cc.L0_capabilities) from
      app_l0_ok_of_wf cc cc.L0_capabilities h0]
    rfl

/-- C10 witness: a concrete partial tree (one unattached L1, one attached
well-formed L2) on which both flatteners agree and neither fails. -/
theorem C10_witness :
    st_generate_csv_rows witIndC10 = attachedRows witIndC10 ∧
    app_generate_csv witIndC10 = .ok (st_generate_csv witIndC10) := by
  have h := C10_partial_tree witIndC10
    ⟨⟨"P1", "q1", none⟩, List.mem_cons_self _ _, rfl⟩
  refine ⟨h.1, h.2 ?_⟩
  intro l1 h1 v hv
  rcases List.mem_cons.mp h1 with rfl | h1
  · exact absurd hv (List.not_mem_nil v)
  rcases List.mem_cons.mp h1 with rfl | h1
  · rcases List.mem_cons.mp hv with rfl | hv
    · rfl
    · exact absurd hv (List.not_mem_nil v)
  · exact absurd h1 (List.not_mem_nil l1)

end ClarisTXM
